import Mathlib

/-!
Shallow embedding of the wormhole remote-execution engine
(github.com/mihaitodor/wormhole) and proofs of the frozen claims.

The embedding follows the Go sources:
  * `inventory/inventory.go` — `Server`, `GetAddress`, the completed/failed sets;
  * `transport/transport.go` — `Session.CloseStdin` (a `sync.Once`-guarded
    close), `connection.Exec`;
  * `actions/file.go` — `copyFile` (the scp wire protocol) and `FileAction.Run`;
  * `playbook/playbook.go` — `Playbook.Run` (the per-host runner), in both the
    revision without a per-action timeout and the current revision that wraps
    every action in `context.WithTimeout(ctx, conf.ExecTimeout)`;
  * `wormhole.go` — `Run`, the batch scheduler.

Effects are made explicit: writes to a session's stdin accumulate in a
`SessionState`, fallible I/O steps are driven by oracles (`Option` results
supplied as parameters), and the scheduler and `Exec` additionally produce
event traces so ordering/occurrence claims can be stated.
-/

namespace Wormhole

/-! ### Inventory: `Server` and the completed/failed sets (inventory/inventory.go) -/

/-- One target machine plus its terminal run outcome.  `playbookErr = none`
means the host has not failed.  Mirrors `inventory.Server`. -/
structure Server where
  host : String
  port : Nat
  username : String
  password : String
  playbookErr : Option String
deriving DecidableEq, Repr

/-- `Server.GetAddress`: `host:22` when no port is set, `host:port` otherwise. -/
def Server.GetAddress (s : Server) : String :=
  if s.port = 0 then s.host ++ ":22" else s.host ++ ":" ++ toString s.port

/-- `Inventory.GetAllServers` restricted to a non-nil predicate: the addresses
of the servers satisfying it, in inventory order. -/
def GetAllServers (p : Server → Bool) (inv : List Server) : List String :=
  (inv.filter p).map Server.GetAddress

/-- `Inventory.GetAllCompletedServers`: hosts with no recorded error. -/
def GetAllCompletedServers (inv : List Server) : List String :=
  GetAllServers (fun s => s.playbookErr.isNone) inv

/-- `Inventory.GetAllFailedServers`: hosts with a recorded error. -/
def GetAllFailedServers (inv : List Server) : List String :=
  GetAllServers (fun s => s.playbookErr.isSome) inv

/-! ### Remote session state (transport/transport.go: `Session`) -/

/-- Observable state of one session's stdin pipe: the bytes written so far,
the `sync.Once` gate of `CloseStdin`, and how many times the underlying pipe
`Close` has actually been performed. -/
structure SessionState where
  written : List Nat
  onceDone : Bool
  underlyingCloses : Nat
deriving DecidableEq, Repr

/-- The state of a freshly created session (`newSession`). -/
def freshSession : SessionState := ⟨[], false, 0⟩

/-- `Session.CloseStdin`: the `sync.Once` gate means only the first call closes
the underlying pipe (returning `pipeCloseErr`, the pipe's close result);
later calls do nothing and return no error. -/
def closeStdin (pipeCloseErr : Option String) (s : SessionState) :
    Option String × SessionState :=
  if s.onceDone then (none, s)
  else (pipeCloseErr, { s with onceDone := true, underlyingCloses := s.underlyingCloses + 1 })

/-- Calling `CloseStdin` `n` times in a row, collecting each call's result. -/
def closeStdinCalls (pipeCloseErr : Option String) :
    Nat → SessionState → List (Option String) × SessionState
  | 0, s => ([], s)
  | n + 1, s =>
    let r := closeStdin pipeCloseErr s
    let rest := closeStdinCalls pipeCloseErr n r.2
    (r.1 :: rest.1, rest.2)

/-! ### File transfer protocol (actions/file.go) -/

/-- Bytes of an ASCII string, as written to the wire. -/
def strBytes (s : String) : List Nat := s.toList.map Char.toNat

@[simp] def isPathSep (c : Char) : Bool := c = '/'

/-- `filepath.Base` (unix): strip trailing separators, keep everything after
the last separator; `""` gives `"."` and an all-separator path gives `"/"`. -/
def filepathBase (p : String) : String :=
  if p = "" then "."
  else
    let stripped := (p.toList.reverse.dropWhile isPathSep).reverse
    let last := (stripped.reverse.takeWhile (fun c => !isPathSep c)).reverse
    if last = [] then "/" else String.mk last

/-- The header line written by `copyFile` via
`fmt.Fprintln(sess.Stdin(), "C"+mode, size, filepath.Base(dest))`:
operands joined by single spaces, newline appended. -/
def headerLine (mode : String) (size : Nat) (dest : String) : String :=
  "C" ++ mode ++ " " ++ toString size ++ " " ++ filepathBase dest ++ "\n"

/-- Outcome of one write to the session's stdin, supplied as an oracle:
`none` means the write fully succeeded; `some (k, e)` means only the first
`k` bytes reached the pipe and the write returned error `e`. -/
def WriteOutcome := Option (Nat × String)

/-- One write step: append the bytes that actually made it onto the wire. -/
def writeBytes (bs : List Nat) (r : WriteOutcome) (s : SessionState) :
    Option String × SessionState :=
  match r with
  | none => (none, { s with written := s.written ++ bs })
  | some (k, e) => (some e, { s with written := s.written ++ bs.take k })

/-- I/O oracle for `copyFile`'s three write steps (header, file body,
NUL terminator) and for the underlying stdin pipe close. -/
structure CopyOracle where
  header : WriteOutcome
  body : WriteOutcome
  term : WriteOutcome
  stdinCloseErr : Option String

/-- `copyFile` (actions/file.go:29-50): write the `C<mode> <size> <base>`
header line, then the file bytes via `io.Copy`, then a single NUL byte;
fail on the first write error, wrapping it; `defer sess.CloseStdin()`
closes stdin on every path (its error is discarded).  The `timeout`
parameter is unused, as in the source. -/
def copyFile (o : CopyOracle) (_timeout : Nat) (src : List Nat) (size : Nat)
    (dest mode : String) (s0 : SessionState) : Option String × SessionState :=
  let r1 := writeBytes (strBytes (headerLine mode size dest)) o.header s0
  match r1.1 with
  | some e =>
    (some ("failed to create remote file: " ++ e), (closeStdin o.stdinCloseErr r1.2).2)
  | none =>
    let r2 := writeBytes src o.body r1.2
    match r2.1 with
    | some e =>
      (some ("failed to write remote file contents: " ++ e), (closeStdin o.stdinCloseErr r2.2).2)
    | none =>
      let r3 := writeBytes [0] o.term r2.2
      match r3.1 with
      | some e =>
        (some ("failed to close remote file: " ++ e), (closeStdin o.stdinCloseErr r3.2).2)
      | none => (none, (closeStdin o.stdinCloseErr r3.2).2)

/-- `actions.FileAction`'s declarative fields. -/
structure FileAction where
  src : String
  dest : String
  owner : String
  group : String
  mode : String
deriving DecidableEq, Repr

/-- The transfer started inside `FileAction.Run`'s first `Exec` callback
(actions/file.go:52-86): substitute `"0644"` for an empty `Mode`, then run
`copyFile` against the fresh session, with `size` taken from the source
file's stat, i.e. the length of its bytes. -/
def fileActionTransfer (a : FileAction) (execTimeout : Nat) (o : CopyOracle)
    (srcBytes : List Nat) : Option String × SessionState :=
  let mode := if a.mode = "" then "0644" else a.mode
  copyFile o execTimeout srcBytes srcBytes.length a.dest mode freshSession

/-- A remote command started through `Connection.Exec` by `FileAction.Run`:
the scp receiver `scp -qt <Dir(dest)>` of the transfer, or the follow-up
`chown <owner>:<group> <dest>`. -/
inductive RemoteCmd where
  | scpReceiver (dest : String)
  | chown (owner group dest : String)
deriving DecidableEq, Repr

/-- Results of the (at most two) `conn.Exec` invocations made by
`FileAction.Run`, supplied as an oracle. -/
structure FileExecEnv where
  transferErr : Option String
  chownErr : Option String

/-- `FileAction.Run` (actions/file.go:52-106) at the level of issued remote
commands: run the transfer `Exec`; on error, wrap and return without a
follow-up; otherwise issue the `chown` follow-up `Exec` exactly when both
`Owner` and `Group` are non-empty, wrapping its error. -/
def fileActionRun (a : FileAction) (env : FileExecEnv) : Option String × List RemoteCmd :=
  match env.transferErr with
  | some e =>
    (some ("failed to copy file \"" ++ a.src ++ "\": " ++ e), [RemoteCmd.scpReceiver a.dest])
  | none =>
    if a.owner ≠ "" && a.group ≠ "" then
      match env.chownErr with
      | some e =>
        (some ("failed to set the file owner on \"" ++ a.dest ++ "\" to "
            ++ a.owner ++ ":" ++ a.group ++ ": " ++ e),
          [RemoteCmd.scpReceiver a.dest, RemoteCmd.chown a.owner a.group a.dest])
      | none => (none, [RemoteCmd.scpReceiver a.dest, RemoteCmd.chown a.owner a.group a.dest])
    else (none, [RemoteCmd.scpReceiver a.dest])

/-! ### `connection.Exec` (transport/transport.go:148-182) -/

/-- The outcomes of the collaborators `Exec` interacts with, supplied as an
oracle: session creation, the body callback's preparation error and whether
it returned an error group, `sess.wait()`, the group's `Wait`, and the
ambient context's `Err()` at the final check. -/
structure ExecEnv where
  newSessionErr : Option String
  prepErr : Option String
  hasAsync : Bool
  asyncErr : Option String
  waitErr : Option String
  ctxErr : Option String

/-- Steps `Exec` performs, in order, for trace-shape claims. -/
inductive ExecEv where
  | sessionCreated
  | bodyCalled
  | waited
  | asyncWaited
  | sessionClosed
deriving DecidableEq, Repr

/-- How `fmt`'s `%s` verb renders an error value: a nil error prints as
`%!s(<nil>)`. -/
def errFmt : Option String → String
  | none => "%!s(<nil>)"
  | some e => e

/-- `connection.Exec`: create a session (aborting on failure, before the
deferred close is registered); call the body, propagating a preparation
error without waiting; wait for the remote command; if an error group was
returned, wait on it too and combine the errors; return the first error,
or, when there is none, the ambient context's error.  The deferred
`sess.close()` runs on every path after session creation succeeded.
Returns the result and the trace of steps performed. -/
def execT (e : ExecEnv) : Option String × List ExecEv :=
  match e.newSessionErr with
  | some s => (some ("failed to create new session: " ++ s), [])
  | none =>
    match e.prepErr with
    | some p =>
      (some ("failed to start the ssh command: " ++ p),
        [ExecEv.sessionCreated, ExecEv.bodyCalled, ExecEv.sessionClosed])
    | none =>
      let werr := e.waitErr.map (fun m => "failed ssh command: " ++ m)
      let combined :=
        if e.hasAsync then
          match e.asyncErr with
          | some a => some (errFmt werr ++ ": failed async ssh operation: " ++ a)
          | none => werr
        else werr
      let evs :=
        [ExecEv.sessionCreated, ExecEv.bodyCalled, ExecEv.waited]
          ++ (if e.hasAsync then [ExecEv.asyncWaited] else [])
          ++ [ExecEv.sessionClosed]
      match combined with
      | some m => (some m, evs)
      | none => (e.ctxErr, evs)

/-- The error `Exec` returns. -/
def exec (e : ExecEnv) : Option String := (execT e).1

/-! ### Playbook execution per host (playbook/playbook.go) -/

/-- A task: a named ordered list of actions.  Actions are abstract (`α`);
what an action does on the remote host is an oracle `α → Option String`. -/
structure Task (α : Type) where
  name : String
  actions : List α
deriving DecidableEq, Repr

/-- The inner action loop of `Playbook.Run`: run each action in order; on
the first non-nil error stop and return it.  Also returns the list of
actions that were actually executed (the successful prefix plus the
failing action, if any). -/
def runActionsFrom (runA : α → Option String) : List α → Option String × List α
  | [] => (none, [])
  | a :: rest =>
    match runA a with
    | some e => (some e, [a])
    | none =>
      let r := runActionsFrom runA rest
      (r.1, a :: r.2)

/-- The outer task loop of `Playbook.Run`: tasks in order, aborting after
the first failing action. -/
def runTasksFrom (runA : α → Option String) : List (Task α) → Option String × List α
  | [] => (none, [])
  | t :: ts =>
    match runActionsFrom runA t.actions with
    | (some e, tr) => (some e, tr)
    | (none, tr) =>
      let r := runTasksFrom runA ts
      (r.1, tr ++ r.2)

/-- `Playbook.Run` (playbook/playbook.go:27-52) for one host: run the tasks;
on failure record the action's error on the Host Record via
`conn.Server.SetError(err)` and return; on success leave the record
untouched.  Returns the updated record and the executed actions. -/
def playbookRun (runA : α → Option String) (tasks : List (Task α)) (s : Server) :
    Server × List α :=
  let r := runTasksFrom runA tasks
  (match r.1 with
    | some e => { s with playbookErr := some e }
    | none => s, r.2)

/-- One batch of hosts run concurrently by the scheduler: each host's
goroutine runs the playbook against its own record only, with its own
action outcomes `runF s`.  No state is shared between hosts. -/
def batchRun (runF : Server → α → Option String) (tasks : List (Task α))
    (servers : List Server) : List (Server × List α) :=
  servers.map (fun s => playbookRun (runF s) tasks s)

/-! ### The per-action timeout context in the current runner
(src/unnamed/part_010, `Playbook.Run`) -/

/-- A Go context: the ambient cancellation context, or a context derived
from a parent by `context.WithTimeout` with the given deadline. -/
inductive Ctx where
  | ambient
  | withTimeout (parent : Ctx) (timeout : Nat)
deriving DecidableEq, Repr

/-- Whether a context is done, given whether the ambient context was
cancelled and the time elapsed since the derived contexts were created: a
`WithTimeout` context fires when its parent is done or its deadline has
passed — whichever happens first. -/
def Ctx.isDone : Ctx → Bool → Nat → Bool
  | .ambient, ambientDone, _ => ambientDone
  | .withTimeout p t, ambientDone, elapsed => p.isDone ambientDone elapsed || decide (t ≤ elapsed)

/-- The context the current runner derives for each action:
`context.WithTimeout(ctx, conf.ExecTimeout)` directly under the ambient
context, fresh for every action. -/
def actionCtx (execTimeout : Nat) : Ctx := Ctx.withTimeout Ctx.ambient execTimeout

/-- Events of the per-action context discipline: a context is derived, the
action runs under a context, the context's `cancel` is called. -/
inductive RunnerEv (α : Type) where
  | derived (c : Ctx)
  | ran (a : α) (c : Ctx)
  | released (c : Ctx)
deriving DecidableEq, Repr

/-- The inner action loop of the current `Playbook.Run` revision: for each
action derive `ctx, cancel := context.WithTimeout(ctx, conf.ExecTimeout)`,
run the action under it, call `cancel()` right after, and stop at the
first error. -/
def runnerActions (runA : α → Ctx → Option String) (execTimeout : Nat) :
    List α → List (RunnerEv α) × Option String
  | [] => ([], none)
  | a :: rest =>
    let c := actionCtx execTimeout
    match runA a c with
    | some e => ([RunnerEv.derived c, RunnerEv.ran a c, RunnerEv.released c], some e)
    | none =>
      let r := runnerActions runA execTimeout rest
      ([RunnerEv.derived c, RunnerEv.ran a c, RunnerEv.released c] ++ r.1, r.2)

/-- The outer task loop of the current `Playbook.Run` revision. -/
def runnerTasks (runA : α → Ctx → Option String) (execTimeout : Nat) :
    List (Task α) → List (RunnerEv α) × Option String
  | [] => ([], none)
  | t :: ts =>
    match runnerActions runA execTimeout t.actions with
    | (evs, some e) => (evs, some e)
    | (evs, none) =>
      let r := runnerTasks runA execTimeout ts
      (evs ++ r.1, r.2)

/-! ### The batch scheduler (wormhole.go:671-718 / the `Run` of the current
`main`, which is identical) -/

/-- The slicing loop of `Run`: `for start := 0; start < len(inventory);
start += MaxConcurrentConnections` with `end = min(start+M, len)`, i.e. the
inventory cut into consecutive slices of size `M` (the last one possibly
shorter).  The configuration layer rejects `M = 0` (`NewConfing` fatals on
it); the Go loop would not terminate there, and the case is mapped to `[]`
and excluded by hypothesis in every theorem. -/
def chunksOf (M : Nat) (l : List α) : List (List α) :=
  match l, M with
  | [], _ => []
  | _ :: _, 0 => []
  | x :: xs, m + 1 => ((x :: xs).take (m + 1)) :: chunksOf (m + 1) ((x :: xs).drop (m + 1))
termination_by l.length
decreasing_by
  simp only [List.length_drop, List.length_cons]
  omega

/-- The error the scheduler records on a Host Record whose dial failed:
`fmt.Errorf("Failed to connect to server %q: %s", server.GetAddress(), err)`. -/
def dialFailMsg (s : Server) (e : String) : String :=
  "Failed to connect to server \"" ++ s.GetAddress ++ "\": " ++ e

/-- What one batch iteration of `Run` does to a single Host Record: a failed
dial records the wrapped dial error and excludes the host from the batch's
playbook run (no action ever executes on it); a live host runs the full
playbook on its own record.  `dial s = some e` means `NewConnection`
returned error `e` for host `s`. -/
def serverRun (dial : Server → Option String) (runF : Server → α → Option String)
    (tasks : List (Task α)) (s : Server) : Server × List α :=
  match dial s with
  | some e => ({ s with playbookErr := some (dialFailMsg s e) }, [])
  | none => playbookRun (runF s) tasks s

/-- One batch: dial every host of the slice, run the playbook concurrently
on the live ones, all against per-host state only. -/
def processBatch (dial : Server → Option String) (runF : Server → α → Option String)
    (tasks : List (Task α)) (b : List Server) : List (Server × List α) :=
  b.map (serverRun dial runF tasks)

/-- `Run`: process the slices strictly in inventory order, one after the
other.  Returns each host's final record and executed actions, in
inventory order. -/
def run (dial : Server → Option String) (runF : Server → α → Option String)
    (tasks : List (Task α)) (M : Nat) (inv : List Server) : List (Server × List α) :=
  (chunksOf M inv).flatMap (processBatch dial runF tasks)

/-- Connection lifecycle events of the scheduler trace. -/
inductive ConnEv where
  | opened
  | closed
deriving DecidableEq, Repr

/-- The hosts of a slice whose dial succeeded, in slice order — the
`connections` list built by `Run`'s dial loop. -/
def liveHosts (dial : Server → Option String) (b : List Server) : List Server :=
  b.filter (fun s => (dial s).isNone)

/-- Connection events of one batch: `Run` dials the slice (opening one
connection per live host), runs the playbook goroutines (which open no
connections), waits for all of them, and only then closes every connection
of the slice. -/
def batchConnEvents (dial : Server → Option String) (b : List Server) : List ConnEv :=
  (liveHosts dial b).map (fun _ => ConnEv.opened)
    ++ (liveHosts dial b).map (fun _ => ConnEv.closed)

/-- The whole scheduler's connection trace: batches strictly one after the
other, no cross-slice concurrency. -/
def schedConnEvents (dial : Server → Option String) (M : Nat) (inv : List Server) :
    List ConnEv :=
  (chunksOf M inv).flatMap (batchConnEvents dial)

/-- The number of connections open after a trace: `opened` adds one,
`closed` removes one. -/
def connDelta : ConnEv → Int
  | .opened => 1
  | .closed => -1

def openConns (tr : List ConnEv) : Int := (tr.map connDelta).sum

end Wormhole

namespace Wormhole

/-! ### Lemmas and claim theorems -/

theorem closeStdin_done (e : Option String) (s : SessionState) (h : s.onceDone = true) :
    closeStdin e s = (none, s) := by
  simp [closeStdin, h]

theorem closeStdinCalls_done (e : Option String) (n : Nat) (s : SessionState)
    (h : s.onceDone = true) :
    closeStdinCalls e n s = (List.replicate n none, s) := by
  induction n with
  | zero => simp [closeStdinCalls]
  | succ n ih => simp [closeStdinCalls, closeStdin_done e s h, ih, List.replicate]

/-- Claim C5: `CloseStdin` is idempotent: starting from a fresh session, out of
any number `n` of calls only the first performs the underlying close (and
returns the pipe's close error); every later call performs no close and
returns `none`.  The final number of underlying closes is `min n 1`. -/
theorem claim_C5_closeStdin_idempotent (pipeCloseErr : Option String) (n : Nat) :
    (closeStdinCalls pipeCloseErr n freshSession).1 =
      (match n with
        | 0 => []
        | m + 1 => pipeCloseErr :: List.replicate m none)
    ∧ (closeStdinCalls pipeCloseErr n freshSession).2.underlyingCloses = min n 1 := by
  cases n with
  | zero => simp [closeStdinCalls, freshSession]
  | succ m =>
    have hfirst : closeStdin pipeCloseErr freshSession =
        (pipeCloseErr, { freshSession with onceDone := true, underlyingCloses := 1 }) := by
      simp [closeStdin, freshSession]
    constructor
    · simp [closeStdinCalls, hfirst, closeStdinCalls_done]
    · simp [closeStdinCalls, hfirst, closeStdinCalls_done]

theorem copyFile_success (o : CopyOracle) (t : Nat) (src : List Nat) (size : Nat)
    (dest mode : String) (hh : o.header = none) (hb : o.body = none) (ht : o.term = none) :
    copyFile o t src size dest mode freshSession =
      (none, ⟨strBytes (headerLine mode size dest) ++ src ++ [0], true, 1⟩) := by
  simp [copyFile, writeBytes, closeStdin, freshSession, hh, hb, ht]

/-- Claim C2: `copyFile` writes, in order, the header line
`C<mode> <size> <basename>\n`, then the raw file bytes, then a single NUL
byte; a failure of any of the three write steps yields a non-nil error; and
stdin's underlying pipe is closed exactly once in every case, including a
copy stopped after a strict prefix of the file bytes. -/
theorem claim_C2_copyFile_wire_format (o : CopyOracle) (t : Nat) (src : List Nat)
    (dest mode : String) :
    (o.header = none → o.body = none → o.term = none →
      (copyFile o t src src.length dest mode freshSession).1 = none ∧
      (copyFile o t src src.length dest mode freshSession).2.written =
        strBytes ("C" ++ mode ++ " " ++ toString src.length ++ " "
          ++ filepathBase dest ++ "\n") ++ src ++ [0])
    ∧ ((o.header.isSome ∨ o.body.isSome ∨ o.term.isSome) →
      (copyFile o t src src.length dest mode freshSession).1.isSome)
    ∧ (copyFile o t src src.length dest mode freshSession).2.onceDone = true
    ∧ (copyFile o t src src.length dest mode freshSession).2.underlyingCloses = 1 := by
  rcases ho : o.header with _ | ⟨k1, e1⟩ <;> rcases hb : o.body with _ | ⟨k2, e2⟩ <;>
    rcases ht : o.term with _ | ⟨k3, e3⟩ <;>
      simp [copyFile, writeBytes, closeStdin, freshSession, headerLine, ho, hb, ht]

/-- Witness for C2: a 2-byte file sent with mode `0644` to `/tmp/a.txt`
produces exactly the advertised bytes; a failing header write produces an
error. -/
theorem claim_C2_copyFile_wire_format_witness :
    ((copyFile ⟨none, none, none, none⟩ 0 [104, 105] ([104, 105] : List Nat).length
        "/tmp/a.txt" "0644" freshSession).1 = none ∧
      (copyFile ⟨none, none, none, none⟩ 0 [104, 105] ([104, 105] : List Nat).length
        "/tmp/a.txt" "0644" freshSession).2.written =
        strBytes ("C" ++ "0644" ++ " " ++ toString ([104, 105] : List Nat).length ++ " "
          ++ filepathBase "/tmp/a.txt" ++ "\n") ++ [104, 105] ++ [0])
    ∧ (copyFile ⟨some (1, "pipe broke"), none, none, none⟩ 0 [104, 105]
        ([104, 105] : List Nat).length "/tmp/a.txt" "0644" freshSession).1.isSome :=
  ⟨(claim_C2_copyFile_wire_format ⟨none, none, none, none⟩ 0 [104, 105]
      "/tmp/a.txt" "0644").1 rfl rfl rfl,
    (claim_C2_copyFile_wire_format ⟨some (1, "pipe broke"), none, none, none⟩ 0 [104, 105]
      "/tmp/a.txt" "0644").2.1 (Or.inl rfl)⟩

/-- Claim C9: with a successful transfer, an empty `Mode` field makes
`FileAction.Run` use mode `0644` in the wire header, and a non-empty `Mode`
is used verbatim. -/
theorem claim_C9_fileAction_default_mode (a : FileAction) (t : Nat) (o : CopyOracle)
    (srcBytes : List Nat) (hh : o.header = none) (hb : o.body = none) (ht : o.term = none) :
    (a.mode = "" →
      (fileActionTransfer a t o srcBytes).2.written =
        strBytes ("C" ++ "0644" ++ " " ++ toString srcBytes.length ++ " "
          ++ filepathBase a.dest ++ "\n") ++ srcBytes ++ [0])
    ∧ (a.mode ≠ "" →
      (fileActionTransfer a t o srcBytes).2.written =
        strBytes ("C" ++ a.mode ++ " " ++ toString srcBytes.length ++ " "
          ++ filepathBase a.dest ++ "\n") ++ srcBytes ++ [0]) := by
  constructor
  · intro hm
    simp [fileActionTransfer, hm, copyFile_success o t srcBytes srcBytes.length
      a.dest "0644" hh hb ht, headerLine]
  · intro hm
    simp [fileActionTransfer, hm, copyFile_success o t srcBytes srcBytes.length
      a.dest a.mode hh hb ht, headerLine]

/-- Witness for C9: an action with empty mode gets `C0644 ...`, one with mode
`0755` keeps it. -/
theorem claim_C9_fileAction_default_mode_witness :
    (fileActionTransfer ⟨"a.txt", "/etc/a.txt", "", "", ""⟩ 0 ⟨none, none, none, none⟩
        [7]).2.written =
      strBytes ("C" ++ "0644" ++ " " ++ toString ([7] : List Nat).length ++ " "
        ++ filepathBase "/etc/a.txt" ++ "\n") ++ [7] ++ [0]
    ∧ (fileActionTransfer ⟨"a.txt", "/etc/a.txt", "", "", "0755"⟩ 0 ⟨none, none, none, none⟩
        [7]).2.written =
      strBytes ("C" ++ "0755" ++ " " ++ toString ([7] : List Nat).length ++ " "
        ++ filepathBase "/etc/a.txt" ++ "\n") ++ [7] ++ [0] :=
  ⟨(claim_C9_fileAction_default_mode ⟨"a.txt", "/etc/a.txt", "", "", ""⟩ 0
      ⟨none, none, none, none⟩ [7] rfl rfl rfl).1 rfl,
    (claim_C9_fileAction_default_mode ⟨"a.txt", "/etc/a.txt", "", "", "0755"⟩ 0
      ⟨none, none, none, none⟩ [7] rfl rfl rfl).2 (by decide)⟩

theorem runActionsFrom_append_ok (runA : α → Option String) (l₁ l₂ : List α)
    (h : (runActionsFrom runA l₁).1 = none) :
    runActionsFrom runA (l₁ ++ l₂) =
      ((runActionsFrom runA l₂).1, (runActionsFrom runA l₁).2 ++ (runActionsFrom runA l₂).2) := by
  induction l₁ with
  | nil => simp [runActionsFrom]
  | cons a rest ih =>
    rcases ha : runA a with _ | e
    · have h' : (runActionsFrom runA rest).1 = none := by
        simpa [runActionsFrom, ha] using h
      simp [runActionsFrom, ha, ih h']
    · rw [runActionsFrom, ha] at h
      exact absurd h (by simp)

theorem runActionsFrom_append_err (runA : α → Option String) (l₁ l₂ : List α) (e : String)
    (h : (runActionsFrom runA l₁).1 = some e) :
    runActionsFrom runA (l₁ ++ l₂) = runActionsFrom runA l₁ := by
  induction l₁ with
  | nil => simp [runActionsFrom] at h
  | cons a rest ih =>
    rcases ha : runA a with _ | e2
    · have h' : (runActionsFrom runA rest).1 = some e := by
        simpa [runActionsFrom, ha] using h
      simp [runActionsFrom, ha, ih h']
    · simp [runActionsFrom, ha]

/-- `Playbook.Run`'s nested task/action loops behave like the single action
loop over the concatenation of all tasks' actions. -/
theorem runTasksFrom_eq_flat (runA : α → Option String) (tasks : List (Task α)) :
    runTasksFrom runA tasks = runActionsFrom runA (tasks.map Task.actions).flatten := by
  induction tasks with
  | nil => simp [runTasksFrom, runActionsFrom]
  | cons t ts ih =>
    rcases hr : runActionsFrom runA t.actions with ⟨r, tr⟩
    rcases r with _ | e
    · rw [List.map_cons, List.flatten_cons, runActionsFrom_append_ok runA t.actions _ (by rw [hr])]
      simp [runTasksFrom, hr, ih]
    · rw [List.map_cons, List.flatten_cons, runActionsFrom_append_err runA t.actions _ e (by rw [hr])]
      simp [runTasksFrom, hr]

theorem runActionsFrom_all_ok (runA : α → Option String) (l : List α)
    (h : ∀ a ∈ l, runA a = none) : runActionsFrom runA l = (none, l) := by
  induction l with
  | nil => simp [runActionsFrom]
  | cons a rest ih =>
    have ha : runA a = none := h a (by simp)
    have ih' := ih (fun b hb => h b (by simp [hb]))
    simp [runActionsFrom, ha, ih']

theorem runActionsFrom_first_err (runA : α → Option String) (pre : List α) (a : α)
    (post : List α) (e : String) (hpre : ∀ b ∈ pre, runA b = none) (ha : runA a = some e) :
    runActionsFrom runA (pre ++ a :: post) = (some e, pre ++ [a]) := by
  induction pre with
  | nil => simp [runActionsFrom, ha]
  | cons b rest ih =>
    have hb : runA b = none := hpre b (by simp)
    have ih' := ih (fun b2 hb2 => hpre b2 (by simp [hb2]))
    simp [runActionsFrom, hb, ih']

/-- Claim C3: per-host playbook execution.  If every action of every task
succeeds, the Host Record is left untouched (outcome completed) and all
actions ran in order.  If some action fails, the first failing action's
error is recorded on the Host Record and nothing after it executes.  Hosts
of the same batch are run independently: each entry of `batchRun` is the
playbook applied to that host's own record and own action outcomes only. -/
theorem claim_C3_playbook_failure_isolation (runA : α → Option String)
    (tasks : List (Task α)) (s : Server) :
    ((∀ a ∈ (tasks.map Task.actions).flatten, runA a = none) →
      playbookRun runA tasks s = (s, (tasks.map Task.actions).flatten))
    ∧ (∀ pre a post e, (tasks.map Task.actions).flatten = pre ++ a :: post →
        (∀ b ∈ pre, runA b = none) → runA a = some e →
        (playbookRun runA tasks s).1.playbookErr = some e ∧
          (playbookRun runA tasks s).2 = pre ++ [a])
    ∧ (∀ (runF : Server → α → Option String) (servers : List Server) (i : Nat),
        (batchRun runF tasks servers)[i]? =
          (servers[i]?).map (fun s2 => playbookRun (runF s2) tasks s2)) := by
  refine ⟨?_, ?_, ?_⟩
  · intro h
    simp [playbookRun, runTasksFrom_eq_flat, runActionsFrom_all_ok runA _ h]
  · intro pre a post e hsplit hpre ha
    have : runTasksFrom runA tasks = (some e, pre ++ [a]) := by
      rw [runTasksFrom_eq_flat, hsplit, runActionsFrom_first_err runA pre a post e hpre ha]
    constructor <;> simp [playbookRun, this]
  · intro runF servers i
    simp [batchRun]

/-- Witness for C3: two tasks, the second action of the first task fails:
the error is recorded, the third and fourth actions never run, and a
sibling host with clean actions finishes everything. -/
theorem claim_C3_playbook_failure_isolation_witness :
    (playbookRun (fun a => if a = 1 then some "boom" else none)
        [⟨"t1", [0, 1]⟩, ⟨"t2", [2, 3]⟩] ⟨"h1", 0, "u", "p", none⟩).1.playbookErr =
      some "boom"
    ∧ (playbookRun (fun a => if a = 1 then some "boom" else none)
        [⟨"t1", [0, 1]⟩, ⟨"t2", [2, 3]⟩] ⟨"h1", 0, "u", "p", none⟩).2 = [0, 1]
    ∧ playbookRun (fun _ => none) [⟨"t1", [0, 1]⟩, ⟨"t2", [2, 3]⟩]
        (⟨"h2", 0, "u", "p", none⟩ : Server) =
      (⟨"h2", 0, "u", "p", none⟩, [0, 1, 2, 3]) := by
  have hfail := (claim_C3_playbook_failure_isolation
      (fun a => if a = 1 then some "boom" else none)
      [⟨"t1", [0, 1]⟩, ⟨"t2", [2, 3]⟩] ⟨"h1", 0, "u", "p", none⟩).2.1
      [0] 1 [2, 3] "boom" (by decide) (by decide) (by decide)
  have hok := (claim_C3_playbook_failure_isolation (fun _ : Nat => none)
      [⟨"t1", [0, 1]⟩, ⟨"t2", [2, 3]⟩] ⟨"h2", 0, "u", "p", none⟩).1 (by decide)
  exact ⟨hfail.1, hfail.2, hok⟩

theorem runnerActions_eq (runA : α → Ctx → Option String) (T : Nat) (l : List α) :
    runnerActions runA T l =
      ((runActionsFrom (fun a => runA a (actionCtx T)) l).2.flatMap
          (fun a => [RunnerEv.derived (actionCtx T), RunnerEv.ran a (actionCtx T),
            RunnerEv.released (actionCtx T)]),
        (runActionsFrom (fun a => runA a (actionCtx T)) l).1) := by
  induction l with
  | nil => simp [runnerActions, runActionsFrom]
  | cons a rest ih =>
    rcases ha : runA a (actionCtx T) with _ | e <;>
      simp [runnerActions, runActionsFrom, ha, ih]

theorem runnerTasks_eq (runA : α → Ctx → Option String) (T : Nat) (tasks : List (Task α)) :
    runnerTasks runA T tasks =
      ((runTasksFrom (fun a => runA a (actionCtx T)) tasks).2.flatMap
          (fun a => [RunnerEv.derived (actionCtx T), RunnerEv.ran a (actionCtx T),
            RunnerEv.released (actionCtx T)]),
        (runTasksFrom (fun a => runA a (actionCtx T)) tasks).1) := by
  induction tasks with
  | nil => simp [runnerTasks, runTasksFrom]
  | cons t ts ih =>
    rcases hr : runActionsFrom (fun a => runA a (actionCtx T)) t.actions with ⟨r, tr⟩
    rcases r with _ | e <;>
      simp [runnerTasks, runTasksFrom, runnerActions_eq, hr, ih]

/-- Claim C6: the current per-host runner derives, for every executed
action, a fresh context `WithTimeout(ambient, ExecTimeout)`; the trace is
exactly derive/run/release per executed action (the context is released
immediately after the action returns); the action result feeding the
stop-on-error logic is the one produced under that context; and the derived
context fires as soon as either the ambient context is cancelled or the
execution timeout elapses — whichever comes first. -/
theorem claim_C6_per_action_timeout_context (runA : α → Ctx → Option String)
    (T : Nat) (tasks : List (Task α)) :
    (runnerTasks runA T tasks).1 =
      (runTasksFrom (fun a => runA a (actionCtx T)) tasks).2.flatMap
        (fun a => [RunnerEv.derived (actionCtx T), RunnerEv.ran a (actionCtx T),
          RunnerEv.released (actionCtx T)])
    ∧ (runnerTasks runA T tasks).2 = (runTasksFrom (fun a => runA a (actionCtx T)) tasks).1
    ∧ (∀ a c, RunnerEv.ran a c ∈ (runnerTasks runA T tasks).1 → c = actionCtx T)
    ∧ (∀ (ambientDone : Bool) (elapsed : Nat),
        (actionCtx T).isDone ambientDone elapsed =
          (ambientDone || decide (T ≤ elapsed))) := by
  refine ⟨(runnerTasks_eq runA T tasks ▸ rfl), (runnerTasks_eq runA T tasks ▸ rfl), ?_, ?_⟩
  · intro a c hmem
    rw [runnerTasks_eq] at hmem
    simp only [List.mem_flatMap, List.mem_cons, List.not_mem_nil, or_false] at hmem
    obtain ⟨x, _, h⟩ := hmem
    rcases h with h | h | h <;> simp_all
  · intro ambientDone elapsed
    simp [actionCtx, Ctx.isDone]

/-- Witness for C6: in a one-task, one-action playbook with a 60-unit
timeout, the context the action ran under is the fresh
`WithTimeout(ambient, 60)` context, and it fires once 60 units elapse even
with the ambient context alive. -/
theorem claim_C6_per_action_timeout_context_witness :
    Ctx.withTimeout Ctx.ambient 60 = actionCtx 60
    ∧ (actionCtx 60).isDone false 60 = (false || decide (60 ≤ 60)) :=
  ⟨(claim_C6_per_action_timeout_context (fun (_ : Nat) (_ : Ctx) => none) 60
      [⟨"t", [5]⟩]).2.2.1 5 (Ctx.withTimeout Ctx.ambient 60) (by decide),
    (claim_C6_per_action_timeout_context (fun (_ : Nat) (_ : Ctx) => none) 60
      [⟨"t", [5]⟩]).2.2.2 false 60⟩

@[simp] theorem chunksOf_nil (M : Nat) : chunksOf M ([] : List α) = [] := by
  rw [chunksOf]

@[simp] theorem chunksOf_zero (x : α) (xs : List α) : chunksOf 0 (x :: xs) = [] := by
  rw [chunksOf]

theorem chunksOf_cons (m : Nat) (x : α) (xs : List α) :
    chunksOf (m + 1) (x :: xs) =
      ((x :: xs).take (m + 1)) :: chunksOf (m + 1) ((x :: xs).drop (m + 1)) := by
  rw [chunksOf]

theorem chunksOf_flatten_aux (m : Nat) :
    ∀ n (l : List α), l.length ≤ n → (chunksOf (m + 1) l).flatten = l := by
  intro n
  induction n with
  | zero =>
    intro l hl
    have : l = [] := List.eq_nil_of_length_eq_zero (Nat.le_zero.mp hl)
    simp [this]
  | succ n ih =>
    intro l hl
    cases l with
    | nil => simp
    | cons x xs =>
      rw [chunksOf_cons, List.flatten_cons,
        ih ((x :: xs).drop (m + 1)) (by simp only [List.length_drop, List.length_cons] at *; omega)]
      exact List.take_append_drop _ _

theorem chunksOf_length_aux (m : Nat) :
    ∀ n (l : List α), l.length ≤ n →
      (chunksOf (m + 1) l).length = (l.length + (m + 1) - 1) / (m + 1) := by
  intro n
  induction n with
  | zero =>
    intro l hl
    have : l = [] := List.eq_nil_of_length_eq_zero (Nat.le_zero.mp hl)
    subst this
    simp [Nat.div_eq_of_lt]
  | succ n ih =>
    intro l hl
    cases l with
    | nil => simp [Nat.div_eq_of_lt]
    | cons x xs =>
      rw [chunksOf_cons, List.length_cons,
        ih ((x :: xs).drop (m + 1)) (by simp only [List.length_drop, List.length_cons] at *; omega)]
      simp only [List.length_drop, List.length_cons]
      by_cases hle : xs.length + 1 ≤ m + 1
      · have h1 : xs.length + 1 - (m + 1) = 0 := by omega
        rw [h1]
        have h2 : (0 + (m + 1) - 1) / (m + 1) = 0 := Nat.div_eq_of_lt (by omega)
        have h3 : (xs.length + 1 + (m + 1) - 1) / (m + 1) = 1 :=
          Nat.div_eq_of_lt_le (by omega) (by omega)
        omega
      · have h1 : xs.length + 1 - (m + 1) + (m + 1) - 1 = xs.length := by omega
        have h2 : xs.length + 1 + (m + 1) - 1 = xs.length + (m + 1) := by omega
        rw [h1, h2, Nat.add_div_right _ (by omega)]

theorem chunksOf_mem_aux (m : Nat) :
    ∀ n (l : List α), l.length ≤ n →
      ∀ b ∈ chunksOf (m + 1) l, b ≠ [] ∧ b.length ≤ m + 1 := by
  intro n
  induction n with
  | zero =>
    intro l hl b hb
    have : l = [] := List.eq_nil_of_length_eq_zero (Nat.le_zero.mp hl)
    subst this
    simp at hb
  | succ n ih =>
    intro l hl b hb
    cases l with
    | nil => simp at hb
    | cons x xs =>
      rw [chunksOf_cons] at hb
      rcases List.mem_cons.mp hb with rfl | hb2
      · refine ⟨by simp, ?_⟩
        simp [List.length_take_le]
      · exact ih ((x :: xs).drop (m + 1))
          (by simp only [List.length_drop, List.length_cons] at *; omega) b hb2

theorem flatMap_map_eq {β γ : Type} (f : β → γ) (L : List (List β)) :
    L.flatMap (fun b => b.map f) = L.flatten.map f := by
  induction L with
  | nil => simp
  | cons b L ih => simp [ih]

theorem run_eq_map (dial : Server → Option String) (runF : Server → α → Option String)
    (tasks : List (Task α)) (M : Nat) (hM : 1 ≤ M) (inv : List Server) :
    run dial runF tasks M inv = inv.map (serverRun dial runF tasks) := by
  obtain ⟨m, rfl⟩ : ∃ m, M = m + 1 := ⟨M - 1, by omega⟩
  unfold run processBatch
  rw [flatMap_map_eq, chunksOf_flatten_aux m inv.length inv le_rfl]

theorem pre_split {β : Type} (l₁ : List β) {l l₂ : List β} (h : l <+: l₁ ++ l₂) :
    l <+: l₁ ∨ ∃ lr, l = l₁ ++ lr ∧ lr <+: l₂ := by
  induction l₁ generalizing l with
  | nil => exact Or.inr ⟨l, rfl, by rw [List.nil_append] at h; exact h⟩
  | cons b t ih =>
    cases l with
    | nil => exact Or.inl ⟨b :: t, rfl⟩
    | cons a l2 =>
      rw [List.cons_append, List.cons_prefix_cons] at h
      obtain ⟨rfl, h2⟩ := h
      rcases ih h2 with hp | ⟨lr, hEq, hr⟩
      · exact Or.inl (List.cons_prefix_cons.mpr ⟨rfl, hp⟩)
      · exact Or.inr ⟨lr, by rw [List.cons_append, hEq], hr⟩

theorem pre_replicate {β : Type} {l : List β} {k : Nat} {x : β}
    (h : l <+: List.replicate k x) :
    l = List.replicate l.length x ∧ l.length ≤ k := by
  obtain ⟨t, ht⟩ := h
  constructor
  · apply List.eq_replicate_of_mem
    intro b hb
    have hbm : b ∈ List.replicate k x := by
      rw [← ht]; exact List.mem_append_left _ hb
    exact List.eq_of_mem_replicate hbm
  · have := congrArg List.length ht
    simp only [List.length_append, List.length_replicate] at this
    omega

@[simp] theorem openConns_nil : openConns [] = 0 := rfl

theorem openConns_append (l₁ l₂ : List ConnEv) :
    openConns (l₁ ++ l₂) = openConns l₁ + openConns l₂ := by
  simp [openConns]

theorem openConns_replicate_opened (k : Nat) :
    openConns (List.replicate k ConnEv.opened) = k := by
  simp [openConns, connDelta, List.map_replicate, List.sum_replicate]

theorem openConns_replicate_closed (k : Nat) :
    openConns (List.replicate k ConnEv.closed) = -k := by
  simp [openConns, connDelta, List.map_replicate, List.sum_replicate]

theorem batchConnEvents_eq (dial : Server → Option String) (b : List Server) :
    batchConnEvents dial b =
      List.replicate (liveHosts dial b).length ConnEv.opened
        ++ List.replicate (liveHosts dial b).length ConnEv.closed := by
  simp [batchConnEvents, List.map_const']

theorem openConns_pre_batch (dial : Server → Option String) (b : List Server)
    (pre : List ConnEv) (h : pre <+: batchConnEvents dial b) :
    openConns pre ≤ (b.length : Int) := by
  rw [batchConnEvents_eq] at h
  have hkb : (liveHosts dial b).length ≤ b.length := List.length_filter_le _ _
  rcases pre_split _ h with hp | ⟨lr, rfl, hr⟩
  · obtain ⟨he, hlen⟩ := pre_replicate hp
    rw [he, openConns_replicate_opened]
    omega
  · obtain ⟨he, hlen⟩ := pre_replicate hr
    rw [openConns_append, openConns_replicate_opened, he, openConns_replicate_closed]
    omega

theorem openConns_batch (dial : Server → Option String) (b : List Server) :
    openConns (batchConnEvents dial b) = 0 := by
  rw [batchConnEvents_eq, openConns_append, openConns_replicate_opened,
    openConns_replicate_closed]
  omega

theorem openConns_pre_flat (dial : Server → Option String) (M : Nat)
    (bs : List (List Server)) (hb : ∀ b ∈ bs, b.length ≤ M) (pre : List ConnEv)
    (h : pre <+: bs.flatMap (batchConnEvents dial)) : openConns pre ≤ (M : Int) := by
  induction bs generalizing pre with
  | nil =>
    have : pre = [] := by simpa using h
    simp [this]
  | cons b bs ih =>
    rw [List.flatMap_cons] at h
    rcases pre_split _ h with hp | ⟨lr, rfl, hr⟩
    · have h1 := openConns_pre_batch dial b pre hp
      have h2 : b.length ≤ M := hb b (by simp)
      omega
    · rw [openConns_append, openConns_batch]
      have := ih (fun b2 hb2 => hb b2 (by simp [hb2])) lr hr
      omega

/-- Claim C1: the scheduler cuts the inventory into consecutive slices of at
most `M` hosts each, processes exactly `⌈N/M⌉` batches strictly in
inventory order (their concatenation is the inventory, and the run's
per-host outcomes are the inventory mapped in order — no cross-slice
concurrency), and at every point of its connection trace at most `M`
Remote Connections are open simultaneously. -/
theorem claim_C1_scheduler_bounded_batches {α : Type} (M : Nat) (hM : 1 ≤ M)
    (inv : List Server) (dial : Server → Option String)
    (runF : Server → α → Option String) (tasks : List (Task α)) :
    (chunksOf M inv).length = (inv.length + M - 1) / M
    ∧ (∀ b ∈ chunksOf M inv, b ≠ [] ∧ b.length ≤ M)
    ∧ (chunksOf M inv).flatten = inv
    ∧ run dial runF tasks M inv = inv.map (serverRun dial runF tasks)
    ∧ (∀ pre, pre <+: schedConnEvents dial M inv → openConns pre ≤ (M : Int)) := by
  obtain ⟨m, rfl⟩ : ∃ m, M = m + 1 := ⟨M - 1, by omega⟩
  refine ⟨chunksOf_length_aux m inv.length inv le_rfl,
    chunksOf_mem_aux m inv.length inv le_rfl,
    chunksOf_flatten_aux m inv.length inv le_rfl,
    run_eq_map dial runF tasks (m + 1) hM inv, ?_⟩
  intro pre hpre
  exact openConns_pre_flat dial (m + 1) (chunksOf (m + 1) inv)
    (fun b hb => (chunksOf_mem_aux m inv.length inv le_rfl b hb).2) pre hpre

/-- Witness for C1: three hosts with concurrency 2 give two batches whose
concatenation is the inventory, and the per-host outcomes are the mapped
inventory. -/
theorem claim_C1_scheduler_bounded_batches_witness :
    (chunksOf 2 [(⟨"h1", 0, "u", "p", none⟩ : Server), ⟨"h2", 0, "u", "p", none⟩,
        ⟨"h3", 0, "u", "p", none⟩]).length =
      (([(⟨"h1", 0, "u", "p", none⟩ : Server), ⟨"h2", 0, "u", "p", none⟩,
        ⟨"h3", 0, "u", "p", none⟩].length + 2 - 1) / 2)
    ∧ (chunksOf 2 [(⟨"h1", 0, "u", "p", none⟩ : Server), ⟨"h2", 0, "u", "p", none⟩,
        ⟨"h3", 0, "u", "p", none⟩]).flatten =
      [(⟨"h1", 0, "u", "p", none⟩ : Server), ⟨"h2", 0, "u", "p", none⟩,
        ⟨"h3", 0, "u", "p", none⟩] :=
  ⟨(claim_C1_scheduler_bounded_batches (α := Nat) 2 (by decide)
      [⟨"h1", 0, "u", "p", none⟩, ⟨"h2", 0, "u", "p", none⟩, ⟨"h3", 0, "u", "p", none⟩]
      (fun _ => none) (fun _ _ => none) []).1,
    (claim_C1_scheduler_bounded_batches (α := Nat) 2 (by decide)
      [⟨"h1", 0, "u", "p", none⟩, ⟨"h2", 0, "u", "p", none⟩, ⟨"h3", 0, "u", "p", none⟩]
      (fun _ => none) (fun _ _ => none) []).2.2.1⟩

/-- Claim C8: a host whose dial fails gets the wrapped dial error recorded
on its Host Record and never enters the playbook state machine (no action
executes on it); every other host of the inventory whose dial succeeded
still runs its full playbook on its own record; and the failed-dial host is
reported in the failed set. -/
theorem claim_C8_dial_failure_isolated {α : Type} (M : Nat) (hM : 1 ≤ M)
    (inv : List Server) (dial : Server → Option String)
    (runF : Server → α → Option String) (tasks : List (Task α)) (i : Nat)
    (s : Server) (e : String) (hs : inv[i]? = some s) (hd : dial s = some e) :
    (run dial runF tasks M inv)[i]? =
      some ({ s with playbookErr := some (dialFailMsg s e) }, ([] : List α))
    ∧ (∀ (j : Nat) (s2 : Server), inv[j]? = some s2 → dial s2 = none →
        (run dial runF tasks M inv)[j]? = some (playbookRun (runF s2) tasks s2))
    ∧ s.GetAddress ∈ GetAllFailedServers ((run dial runF tasks M inv).map Prod.fst) := by
  have hrun := run_eq_map dial runF tasks M hM inv
  refine ⟨?_, ?_, ?_⟩
  · rw [hrun, List.getElem?_map, hs]
    simp [serverRun, hd]
  · intro j s2 hj hd2
    rw [hrun]
    simp [List.getElem?_map, hj, serverRun, hd2]
  · have hsmem : s ∈ inv := by
      obtain ⟨hlt, hEq⟩ := List.getElem?_eq_some.mp hs
      exact hEq ▸ List.getElem_mem hlt
    have hpair : serverRun dial runF tasks s =
        ({ s with playbookErr := some (dialFailMsg s e) }, ([] : List α)) := by
      simp [serverRun, hd]
    have hmem : ({ s with playbookErr := some (dialFailMsg s e) }, ([] : List α)) ∈
        run dial runF tasks M inv := by
      rw [hrun, ← hpair]
      exact List.mem_map_of_mem _ hsmem
    have hmem1 : ({ s with playbookErr := some (dialFailMsg s e) } : Server) ∈
        (run dial runF tasks M inv).map Prod.fst :=
      List.mem_map_of_mem Prod.fst hmem
    have hmemf : ({ s with playbookErr := some (dialFailMsg s e) } : Server) ∈
        ((run dial runF tasks M inv).map Prod.fst).filter
          (fun s3 => s3.playbookErr.isSome) :=
      List.mem_filter.mpr ⟨hmem1, by simp⟩
    have hfin := List.mem_map_of_mem Server.GetAddress hmemf
    have haddr : Server.GetAddress { s with playbookErr := some (dialFailMsg s e) } =
        s.GetAddress := rfl
    rw [GetAllFailedServers, GetAllServers, ← haddr]
    exact hfin

/-- Witness for C8: among three hosts with concurrency 2, the second host's
dial fails: its record carries the wrapped dial error with an empty action
trace, and its address appears in the failed set. -/
theorem claim_C8_dial_failure_isolated_witness :
    (run (fun s => if s.host = "h2" then some "connection refused" else none)
        (fun _ (_ : Nat) => none) [] 2
        [⟨"h1", 0, "u", "p", none⟩, ⟨"h2", 0, "u", "p", none⟩, ⟨"h3", 0, "u", "p", none⟩])[1]? =
      some ({ (⟨"h2", 0, "u", "p", none⟩ : Server) with
          playbookErr := some (dialFailMsg ⟨"h2", 0, "u", "p", none⟩ "connection refused") },
        ([] : List Nat))
    ∧ (⟨"h2", 0, "u", "p", none⟩ : Server).GetAddress ∈
      GetAllFailedServers
        ((run (fun s => if s.host = "h2" then some "connection refused" else none)
          (fun _ (_ : Nat) => none) [] 2
          [⟨"h1", 0, "u", "p", none⟩, ⟨"h2", 0, "u", "p", none⟩,
            ⟨"h3", 0, "u", "p", none⟩]).map Prod.fst) :=
  ⟨(claim_C8_dial_failure_isolated 2 (by decide)
      [⟨"h1", 0, "u", "p", none⟩, ⟨"h2", 0, "u", "p", none⟩, ⟨"h3", 0, "u", "p", none⟩]
      (fun s => if s.host = "h2" then some "connection refused" else none)
      (fun _ (_ : Nat) => none) [] 1 ⟨"h2", 0, "u", "p", none⟩ "connection refused"
      (by decide) (by decide)).1,
    (claim_C8_dial_failure_isolated 2 (by decide)
      [⟨"h1", 0, "u", "p", none⟩, ⟨"h2", 0, "u", "p", none⟩, ⟨"h3", 0, "u", "p", none⟩]
      (fun s => if s.host = "h2" then some "connection refused" else none)
      (fun _ (_ : Nat) => none) [] 1 ⟨"h2", 0, "u", "p", none⟩ "connection refused"
      (by decide) (by decide)).2.2⟩

/-- Claim C4: when the ambient context has been cancelled (`ctx.Err()` is
non-nil), `Exec` returns a non-nil error; and if neither session creation,
the body, the remote command nor the side-task failed, the returned error
is exactly the context's error — cancellation is never reported as
success. -/
theorem claim_C4_exec_cancellation_not_success (e : ExecEnv) (c : String)
    (hc : e.ctxErr = some c) :
    (exec e).isSome
    ∧ (e.newSessionErr = none → e.prepErr = none → e.waitErr = none →
        e.asyncErr = none → exec e = some c) := by
  constructor
  · rcases hn : e.newSessionErr with _ | s
    · rcases hp : e.prepErr with _ | p
      · rcases hw : e.waitErr with _ | w <;> rcases ha : e.asyncErr with _ | a <;>
          rcases hg : e.hasAsync with _ | _ <;>
            simp [exec, execT, hn, hp, hw, ha, hg, hc]
      · simp [exec, execT, hn, hp]
    · simp [exec, execT, hn]
  · intro hn hp hw ha
    rcases hg : e.hasAsync with _ | _ <;> simp [exec, execT, hn, hp, hw, ha, hg, hc]

/-- Witness for C4: a cancelled context with an otherwise clean run still
yields the context's error. -/
theorem claim_C4_exec_cancellation_not_success_witness :
    (exec ⟨none, none, true, none, none, some "context canceled"⟩).isSome
    ∧ exec ⟨none, none, true, none, none, some "context canceled"⟩ =
        some "context canceled" :=
  ⟨(claim_C4_exec_cancellation_not_success
      ⟨none, none, true, none, none, some "context canceled"⟩ "context canceled" rfl).1,
    (claim_C4_exec_cancellation_not_success
      ⟨none, none, true, none, none, some "context canceled"⟩ "context canceled" rfl).2
      rfl rfl rfl rfl⟩

/-- Claim C7: when the body callback returns a preparation error, `Exec`
returns immediately with an error wrapping exactly that preparation error,
without calling `Wait()` on the session and without waiting on any
side-task. -/
theorem claim_C7_exec_prep_error_no_wait (e : ExecEnv) (p : String)
    (hn : e.newSessionErr = none) (hp : e.prepErr = some p) :
    exec e = some ("failed to start the ssh command: " ++ p)
    ∧ ExecEv.waited ∉ (execT e).2
    ∧ ExecEv.asyncWaited ∉ (execT e).2 := by
  refine ⟨?_, ?_, ?_⟩ <;> simp [exec, execT, hn, hp]

/-- Witness for C7: a concrete preparation failure is propagated and the
trace contains no wait. -/
theorem claim_C7_exec_prep_error_no_wait_witness :
    exec ⟨none, some "no such file", true, none, none, none⟩ =
      some ("failed to start the ssh command: " ++ "no such file")
    ∧ ExecEv.waited ∉ (execT ⟨none, some "no such file", true, none, none, none⟩).2 :=
  ⟨(claim_C7_exec_prep_error_no_wait ⟨none, some "no such file", true, none, none, none⟩
      "no such file" rfl rfl).1,
    (claim_C7_exec_prep_error_no_wait ⟨none, some "no such file", true, none, none, none⟩
      "no such file" rfl rfl).2.1⟩

/-- Claim C10: after a successful transfer, `FileAction.Run` issues the
`chown` follow-up command iff both `Owner` and `Group` are non-empty; if
either is empty, the only remote command ever issued is the scp receiver. -/
theorem claim_C10_fileAction_chown_iff (a : FileAction) (env : FileExecEnv) :
    (env.transferErr = none →
      (RemoteCmd.chown a.owner a.group a.dest ∈ (fileActionRun a env).2 ↔
        (a.owner ≠ "" ∧ a.group ≠ "")))
    ∧ ((a.owner = "" ∨ a.group = "") →
      (fileActionRun a env).2 = [RemoteCmd.scpReceiver a.dest]) := by
  refine ⟨?_, ?_⟩
  · intro htr
    rcases hch : env.chownErr with _ | e2 <;>
      by_cases ho : a.owner = "" <;> by_cases hg : a.group = "" <;>
        simp [fileActionRun, htr, hch, ho, hg]
  · intro hog
    rcases htr : env.transferErr with _ | e
    · rcases hog with h | h <;> simp [fileActionRun, htr, h]
    · simp [fileActionRun, htr]

/-- Witness for C10: with owner and group set and a clean transfer the chown
runs; with the group missing it does not. -/
theorem claim_C10_fileAction_chown_iff_witness :
    (RemoteCmd.chown "root" "wheel" "/etc/a.txt" ∈
      (fileActionRun ⟨"a.txt", "/etc/a.txt", "root", "wheel", ""⟩ ⟨none, none⟩).2)
    ∧ (fileActionRun ⟨"a.txt", "/etc/a.txt", "root", "", ""⟩ ⟨none, none⟩).2 =
      [RemoteCmd.scpReceiver "/etc/a.txt"] :=
  ⟨((claim_C10_fileAction_chown_iff ⟨"a.txt", "/etc/a.txt", "root", "wheel", ""⟩
      ⟨none, none⟩).1 rfl).mpr (by decide),
    (claim_C10_fileAction_chown_iff ⟨"a.txt", "/etc/a.txt", "root", "", ""⟩
      ⟨none, none⟩).2 (Or.inr rfl)⟩

end Wormhole
